import Mathlib

/-!
Verification of jack/readers/knowledge_base_population/models.py.

The file shallowly embeds the knowledge-base-population reader:
vocabulary construction (setup_from_data), triple preprocessing
(preprocess), negative sampling and batch assembly (create_batch), and
the output conversion (KnowledgeGraphEmbeddingOutputModule.__call__).

Modelling conventions:
- Python str.split() (whitespace tokenisation dropping empty pieces) is
  the function splitQ below, written over the character list so that it
  evaluates by kernel reduction.
- A Python dict built by a comprehension over enumerate(some_set) is
  modelled by the enumeration order of the set, a list of distinct
  tokens.  CPython does not specify an iteration order for a set of
  strings (it varies with hash randomisation), so the order enters the
  embedding as an explicit parameter, constrained in theorems by
  isEnumOf (distinct elements, same membership as the observed tokens).
- Python exceptions become the constructors of KBPError: the KeyError
  raised by a failed entity_to_index / predicate_to_index dict access is
  UnknownEntityError / UnknownPredicateError, and the ValueError raised
  by unpacking a split of length other than 3 is MalformedTripleError.
- The private random generator (random.Random(123)) is abstracted as the
  sequence of values its successive randint(0, num_entities - 1) calls
  return, a function from draw counter to value; no claim depends on
  the concrete Mersenne-Twister values.
- create_batch mutates a Python list object.  The embedding carries a
  small heap: the contents of the caller's list object and of the list
  the local name refers to, plus a flag saying whether the two are the
  same object.  Line 39 of the source (triples = list(triples)) makes
  the local a fresh copy, so the flag is false there.
-/

/-- Entity and predicate tokens are strings. -/
abbrev Token := String

/-- An indexed triple: the Python list of three ints [s_idx, p_idx, o_idx]
that preprocess builds and create_batch consumes. -/
structure ITriple where
  s : Nat
  p : Nat
  o : Nat
  deriving DecidableEq, Repr

/-- Failure modes of vocabulary building and preprocessing.  In the Python
source these are a ValueError from tuple unpacking (malformed triple) and a
KeyError from a dict access (unknown entity or predicate); the constructor
records which operation failed. -/
inductive KBPError where
  | MalformedTripleError
  | UnknownEntityError
  | UnknownPredicateError
  deriving DecidableEq, Repr

/-- Helper for splitQ: scans the character list, accumulating the current
token in reverse; whitespace ends the current token, and empty pieces are
dropped, exactly the semantics of Python str.split with no arguments. -/
def tokensAux (cur : List Char) : List Char → List Token
  | [] => if cur.isEmpty then [] else [String.mk cur.reverse]
  | c :: rest =>
    if c.isWhitespace then
      (if cur.isEmpty then [] else [String.mk cur.reverse]) ++ tokensAux [] rest
    else
      tokensAux (c :: cur) rest

/-- Python question.split() at models.py lines 14 and 30: split on runs of
whitespace, with no empty tokens. -/
def splitQ (q : String) : List Token :=
  tokensAux [] q.data

/-- The vocabulary produced by setup_from_data: the enumeration order of
entity_set and predicate_set.  The dicts entity_to_index and
predicate_to_index are derived from these lists. -/
structure Vocab where
  entityEnum : List Token
  predEnum : List Token
  deriving DecidableEq, Repr

/-- The dict comprehension at models.py lines 19-20:
{token: index for index, token in enumerate(tokens)}, as an association
list keyed by token. -/
def enumDict (es : List Token) : List (Token × Nat) :=
  es.enum.map (fun pr => (pr.2, pr.1))

/-- Lookup in the entity_to_index dict; none models a KeyError. -/
def entity_to_index (v : Vocab) (t : Token) : Option Nat :=
  (enumDict v.entityEnum).lookup t

/-- Lookup in the predicate_to_index dict; none models a KeyError. -/
def predicate_to_index (v : Vocab) (t : Token) : Option Nat :=
  (enumDict v.predEnum).lookup t

/-- Number of entities, len(self.entity_to_index). -/
def numEntities (v : Vocab) : Nat :=
  v.entityEnum.length

/-- The tokens entering entity_set at models.py line 16: all subjects and
all objects of the split triples (as a list with duplicates; the Python
set is its set of members). -/
def entityTokens (triples : List (List Token)) : List Token :=
  triples.filterMap (fun t => t[0]?) ++ triples.filterMap (fun t => t[2]?)

/-- The tokens entering predicate_set at models.py line 17. -/
def predTokens (triples : List (List Token)) : List Token :=
  triples.filterMap (fun t => t[1]?)

/-- es is a possible iteration order of the Python set whose members are
the tokens of pool: distinct elements, same membership. -/
def isEnumOf (es pool : List Token) : Prop :=
  es.Nodup ∧ (∀ t ∈ es, t ∈ pool) ∧ (∀ t ∈ pool, t ∈ es)

instance (es pool : List Token) : Decidable (isEnumOf es pool) := by
  unfold isEnumOf; infer_instance

/-- setup_from_data (models.py lines 13-23): split every question, fail
with the unpacking error if any does not have exactly 3 tokens, otherwise
publish the two index dicts.  The set iteration orders enumE and enumP are
parameters (see the header comment); theorems constrain them by isEnumOf. -/
def setup_from_data (enumE enumP : List Token) (data : List String) :
    Except KBPError Vocab :=
  let triples := data.map splitQ
  if triples.all (fun t => t.length == 3) then
    Except.ok ⟨enumE, enumP⟩
  else
    Except.error KBPError.MalformedTripleError

/-- One iteration of the preprocess loop (models.py lines 29-33): unpack
s, p, o (ValueError if not exactly 3 tokens), then look up s, then o in
entity_to_index (KeyError on the first absent one), then p in
predicate_to_index, in the evaluation order of the source. -/
def preprocessOne (v : Vocab) (q : String) : Except KBPError (Nat × Nat × Nat) :=
  match splitQ q with
  | [s, p, o] =>
    match entity_to_index v s with
    | none => Except.error KBPError.UnknownEntityError
    | some si =>
      match entity_to_index v o with
      | none => Except.error KBPError.UnknownEntityError
      | some oi =>
        match predicate_to_index v p with
        | none => Except.error KBPError.UnknownPredicateError
        | some pi => Except.ok (si, pi, oi)
  | _ => Except.error KBPError.MalformedTripleError

/-- preprocess (models.py lines 25-35): process the questions in order,
appending one indexed triple each, propagating the first failure. -/
def preprocess (v : Vocab) : List String → Except KBPError (List (Nat × Nat × Nat))
  | [] => Except.ok []
  | q :: rest =>
    match preprocessOne v q with
    | Except.error e => Except.error e
    | Except.ok t =>
      match preprocess v rest with
      | Except.error e => Except.error e
      | Except.ok ts => Except.ok (t :: ts)

/-- The index triple the spec assigns to a well-formed question whose
tokens are all in the vocabulary; used only to state theorems. -/
def idxTriple (v : Vocab) (q : String) : Nat × Nat × Nat :=
  match splitQ q with
  | [s, p, o] =>
    ((entity_to_index v s).getD 0, (predicate_to_index v p).getD 0,
      (entity_to_index v o).getD 0)
  | _ => (0, 0, 0)

/-- State of the create_batch computation (models.py lines 37-57).
caller holds the contents of the list object the caller passed in, cur the
contents of the list the local name triples refers to, and aliased whether
the two are the same object; target is the target list and draws counts
the randint calls made so far. -/
structure CBState where
  caller : List ITriple
  cur : List ITriple
  aliased : Bool
  target : List Nat
  draws : Nat

/-- Appending to the list the local name refers to: the caller's object
changes exactly when the local name aliases it. -/
def appendTr (st : CBState) (xs : List ITriple) : CBState :=
  { st with
    cur := st.cur ++ xs,
    caller := if st.aliased then st.caller ++ xs else st.caller }

/-- The inner loop of create_batch (models.py lines 45-52): repeat
num_negative times for the positive (s, p, o): draw a random subject index
and a random object index, append the subject-corrupted and the
object-corrupted triple, and when with_answers append two 0 targets. -/
def innerLoop (rand : Nat → Nat) (w : Bool) (s p o : Nat) :
    Nat → CBState → CBState
  | 0, st => st
  | Nat.succ m, st =>
    let rs := rand st.draws
    let ro := rand (st.draws + 1)
    let st1 := appendTr st [⟨rs, p, o⟩, ⟨s, p, ro⟩]
    let st2 := { st1 with
      target := if w then st1.target ++ [0, 0] else st1.target,
      draws := st1.draws + 2 }
    innerLoop rand w s p o m st2

/-- The outer loop of create_batch (models.py lines 43-52), iterating over
the positives.  In the source the loop runs i over range(n) where n is the
length before any append, and triples[i] for i < n is unchanged by the
appends (they only extend the list), so iterating the original list is
exact. -/
def outerLoop (rand : Nat → Nat) (w : Bool) (k : Nat) :
    List ITriple → CBState → CBState
  | [], st => st
  | t :: rest, st =>
    outerLoop rand w k rest (innerLoop rand w t.s t.p t.o k st)

/-- The batch returned by create_batch: the "question" rows always, the
"target" rows only when with_answers (the keys of the xy_dict at models.py
lines 54-56; numpify only converts the lists to arrays). -/
structure Batch where
  question : List ITriple
  target : Option (List Nat)
  deriving DecidableEq, Repr

/-- create_batch (models.py lines 37-57).  k is the configured
num_negative, rand the abstracted random sequence.  Line 39
(triples = list(triples)) makes the local list a fresh copy of the
caller's list, so aliased is false; line 41 initialises target to
[1] * n when with_answers.  Returns the batch and the contents of the
caller's list object after the call. -/
def create_batch (rand : Nat → Nat) (k : Nat) (ts : List ITriple)
    (is_eval w : Bool) : Batch × List ITriple :=
  let st0 : CBState :=
    ⟨ts, ts, false, if w then List.replicate ts.length 1 else [], 0⟩
  let st := if is_eval then st0 else outerLoop rand w k ts st0
  (⟨st.cur, if w then some st.target else none⟩, st.caller)

/-- The 2 * k corrupted triples the inner loop appends for the positive
(s, p, o) when the draw counter starts at d: for each of the k repeats,
the subject-corrupted triple then the object-corrupted one, each keeping
the predicate and the uncorrupted entity. -/
def negPairs (rand : Nat → Nat) (d : Nat) (s p o : Nat) : Nat → List ITriple
  | 0 => []
  | Nat.succ m =>
    ⟨rand d, p, o⟩ :: ⟨s, p, rand (d + 1)⟩ :: negPairs rand (d + 2) s p o m

/-- All corrupted triples create_batch appends for the positives, in
order, with the draw counter threaded through. -/
def negsAll (rand : Nat → Nat) (k : Nat) (d : Nat) : List ITriple → List ITriple
  | [] => []
  | t :: rest => negPairs rand d t.s t.p t.o k ++ negsAll rand k (d + 2 * k) rest

/-- An answer record: the original question text paired with its score
(the score type is the scalar the logits carry). -/
structure Answer (α : Type) where
  text : String
  score : α
  deriving DecidableEq, Repr

/-- The enumerate loop of KnowledgeGraphEmbeddingOutputModule.__call__
(models.py lines 154-157): i is the running batch index; logits[i] out of
range models the IndexError. -/
def outputGo {α : Type} (logits : List α) : Nat → List String → Option (List (Answer α))
  | _, [] => some []
  | i, q :: rest =>
    match logits[i]? with
    | none => none
    | some sc =>
      match outputGo logits (i + 1) rest with
      | none => none
      | some rs => some (⟨q, sc⟩ :: rs)

/-- KnowledgeGraphEmbeddingOutputModule.__call__ (models.py lines
151-158): one Answer per input question, pairing the question text with
the logit at the question's batch index. -/
def outputCall {α : Type} (inputs : List String) (logits : List α) :
    Option (List (Answer α)) :=
  outputGo logits 0 inputs

/-- First index of a token in an enumeration, the value its dict entry
carries; a proof-layer characterisation of the lookup in enumDict. -/
def firstIdx (es : List Token) (t : Token) : Option Nat :=
  match es with
  | [] => none
  | a :: rest => if a == t then some 0 else (firstIdx rest t).map (fun i => i + 1)

lemma lookup_enumDictFrom (es : List Token) (n : Nat) (t : Token) :
    (((List.enumFrom n es).map (fun pr => (pr.2, pr.1))).lookup t)
      = (firstIdx es t).map (fun i => i + n) := by
  induction es generalizing n with
  | nil => simp [firstIdx]
  | cons a rest ih =>
    by_cases h : t = a
    · subst h
      simp [firstIdx, List.lookup]
    · have hb : (t == a) = false := beq_eq_false_iff_ne.mpr h
      have hb2 : (a == t) = false := beq_eq_false_iff_ne.mpr (fun he => h he.symm)
      simp only [List.enumFrom_cons, List.map_cons, List.lookup, hb, firstIdx, hb2]
      rw [ih (n + 1)]
      cases firstIdx rest t with
      | none => simp
      | some i => simp; omega

lemma lookup_enumDict (es : List Token) (t : Token) :
    (enumDict es).lookup t = firstIdx es t := by
  have h := lookup_enumDictFrom es 0 t
  cases hf : firstIdx es t <;>
    simp [enumDict, List.enum, hf] at h ⊢ <;> simpa using h

lemma firstIdx_getElem (es : List Token) (t : Token) (i : Nat)
    (h : firstIdx es t = some i) : es[i]? = some t := by
  induction es generalizing i with
  | nil => simp [firstIdx] at h
  | cons a rest ih =>
    by_cases ha : a = t
    · subst ha
      simp [firstIdx] at h
      subst h
      simp
    · have hb : (a == t) = false := beq_eq_false_iff_ne.mpr ha
      simp [firstIdx, hb] at h
      cases hf : firstIdx rest t with
      | none => rw [hf] at h; simp at h
      | some j =>
        rw [hf] at h
        simp at h
        subst h
        simpa using ih j hf

lemma firstIdx_mem (es : List Token) (t : Token) (h : t ∈ es) :
    ∃ i, firstIdx es t = some i := by
  induction es with
  | nil => simp at h
  | cons a rest ih =>
    by_cases ha : a = t
    · exact ⟨0, by simp [firstIdx, ha]⟩
    · have hb : (a == t) = false := beq_eq_false_iff_ne.mpr ha
      have hmem : t ∈ rest := by
        rcases List.mem_cons.mp h with h1 | h1
        · exact absurd h1.symm ha
        · exact h1
      obtain ⟨i, hi⟩ := ih hmem
      exact ⟨i + 1, by simp [firstIdx, hb, hi]⟩

lemma firstIdx_nodup_get (es : List Token) (hnd : es.Nodup) (i : Nat)
    (h : i < es.length) : firstIdx es (es[i]) = some i := by
  induction es generalizing i with
  | nil => simp at h
  | cons a rest ih =>
    have hnr : rest.Nodup := (List.nodup_cons.mp hnd).2
    have hna : a ∉ rest := (List.nodup_cons.mp hnd).1
    cases i with
    | zero => simp [firstIdx]
    | succ j =>
      have hj : j < rest.length := by simpa using h
      have hne : a ≠ rest[j] := fun he => hna (he ▸ List.getElem_mem hj)
      have hb : (a == rest[j]) = false := beq_eq_false_iff_ne.mpr hne
      simp only [List.getElem_cons_succ, firstIdx, hb, if_false]
      rw [ih hnr j hj]
      rfl

lemma enum_lookup_bij (es pool : List Token) (he : isEnumOf es pool) :
    (∀ t ∈ pool, ∃ i, (enumDict es).lookup t = some i ∧ i < es.length
        ∧ es[i]? = some t)
    ∧ (∀ i, i < es.length → ∃ t, es[i]? = some t
        ∧ (enumDict es).lookup t = some i) := by
  obtain ⟨hnd, _, hsub⟩ := he
  constructor
  · intro t ht
    obtain ⟨i, hi⟩ := firstIdx_mem es t (hsub t ht)
    have hg := firstIdx_getElem es t i hi
    obtain ⟨hlt, _⟩ := List.getElem?_eq_some.mp hg
    exact ⟨i, by rw [lookup_enumDict]; exact hi, hlt, hg⟩
  · intro i hlt
    refine ⟨es[i], by simp [hlt], ?_⟩
    rw [lookup_enumDict]
    exact firstIdx_nodup_get es hnd i hlt

lemma setup_ok_vocab (enumE enumP : List Token) (data : List String) (v : Vocab)
    (h : setup_from_data enumE enumP data = Except.ok v) :
    v = ⟨enumE, enumP⟩ := by
  simp only [setup_from_data] at h
  split at h
  · exact (Except.ok.inj h).symm
  · exact Except.noConfusion h

/-- C5: after setup_from_data the entity and predicate mappings are
bijections from the observed tokens onto an initial integer segment: every
token of the training set has an index, reading the enumeration back at
that index recovers the token, and every index below the count is the
image of a stored token (no gaps). -/
theorem setup_vocab_bijective (data : List String) (enumE enumP : List Token)
    (v : Vocab) (hsetup : setup_from_data enumE enumP data = Except.ok v)
    (hE : isEnumOf enumE (entityTokens (data.map splitQ)))
    (hP : isEnumOf enumP (predTokens (data.map splitQ))) :
    (∀ t ∈ entityTokens (data.map splitQ),
        ∃ i, entity_to_index v t = some i ∧ i < numEntities v
          ∧ v.entityEnum[i]? = some t)
    ∧ (∀ i, i < numEntities v →
        ∃ t, v.entityEnum[i]? = some t ∧ entity_to_index v t = some i)
    ∧ (∀ t ∈ predTokens (data.map splitQ),
        ∃ i, predicate_to_index v t = some i ∧ i < v.predEnum.length
          ∧ v.predEnum[i]? = some t)
    ∧ (∀ i, i < v.predEnum.length →
        ∃ t, v.predEnum[i]? = some t ∧ predicate_to_index v t = some i) := by
  have hv := setup_ok_vocab enumE enumP data v hsetup
  subst hv
  obtain ⟨hE1, hE2⟩ := enum_lookup_bij enumE (entityTokens (data.map splitQ)) hE
  obtain ⟨hP1, hP2⟩ := enum_lookup_bij enumP (predTokens (data.map splitQ)) hP
  exact ⟨hE1, hE2, hP1, hP2⟩

/-- Witness for C5 at the training set with the single triple a r b, with
the enumeration order a, b for entities and r for predicates. -/
theorem setup_vocab_bijective_witness :
    (∀ t ∈ entityTokens ((["a r b"]).map splitQ),
        ∃ i, entity_to_index ⟨["a", "b"], ["r"]⟩ t = some i
          ∧ i < numEntities ⟨["a", "b"], ["r"]⟩
          ∧ (Vocab.mk ["a", "b"] ["r"]).entityEnum[i]? = some t)
    ∧ (∀ i, i < numEntities ⟨["a", "b"], ["r"]⟩ →
        ∃ t, (Vocab.mk ["a", "b"] ["r"]).entityEnum[i]? = some t
          ∧ entity_to_index ⟨["a", "b"], ["r"]⟩ t = some i)
    ∧ (∀ t ∈ predTokens ((["a r b"]).map splitQ),
        ∃ i, predicate_to_index ⟨["a", "b"], ["r"]⟩ t = some i
          ∧ i < (Vocab.mk ["a", "b"] ["r"]).predEnum.length
          ∧ (Vocab.mk ["a", "b"] ["r"]).predEnum[i]? = some t)
    ∧ (∀ i, i < (Vocab.mk ["a", "b"] ["r"]).predEnum.length →
        ∃ t, (Vocab.mk ["a", "b"] ["r"]).predEnum[i]? = some t
          ∧ predicate_to_index ⟨["a", "b"], ["r"]⟩ t = some i) :=
  setup_vocab_bijective ["a r b"] ["a", "b"] ["r"] ⟨["a", "b"], ["r"]⟩
    rfl (by decide) (by decide)

/-- C8: the index a token receives depends on the enumeration order of the
Python set, which is not fixed by the language across runs.  Both a, b and
b, a are valid iteration orders of the entity set of the training triple
a r b, both are accepted by setup_from_data, and they give the entity a
the index 0 in one run and 1 in the other. -/
theorem setup_enum_order_changes_indices :
    isEnumOf ["a", "b"] (entityTokens ((["a r b"]).map splitQ))
    ∧ isEnumOf ["b", "a"] (entityTokens ((["a r b"]).map splitQ))
    ∧ setup_from_data ["a", "b"] ["r"] ["a r b"]
        = Except.ok ⟨["a", "b"], ["r"]⟩
    ∧ setup_from_data ["b", "a"] ["r"] ["a r b"]
        = Except.ok ⟨["b", "a"], ["r"]⟩
    ∧ entity_to_index ⟨["a", "b"], ["r"]⟩ "a" = some 0
    ∧ entity_to_index ⟨["b", "a"], ["r"]⟩ "a" = some 1 :=
  ⟨by decide, by decide, rfl, rfl, by decide, by decide⟩

lemma preprocessOne_ok_eq (v : Vocab) (q : String) (s p o : Token)
    (si pi oi : Nat) (hsplit : splitQ q = [s, p, o])
    (hs : entity_to_index v s = some si)
    (ho : entity_to_index v o = some oi)
    (hp : predicate_to_index v p = some pi) :
    preprocessOne v q = Except.ok (si, pi, oi)
    ∧ idxTriple v q = (si, pi, oi) := by
  unfold preprocessOne idxTriple
  rw [hsplit]
  simp [hs, ho, hp]

/-- C4: on questions that all split into three tokens found in the frozen
vocabulary, preprocess succeeds and returns, in input order, one triple
per question, mapping tokens s, p, o to entity_to_index s,
predicate_to_index p, entity_to_index o.  The result is a function of the
vocabulary and the questions alone, so two calls on the same input agree
definitionally. -/
theorem preprocess_maps_tokens (v : Vocab) (qs : List String)
    (h : ∀ q ∈ qs, ∃ s p o si pi oi, splitQ q = [s, p, o]
        ∧ entity_to_index v s = some si ∧ entity_to_index v o = some oi
        ∧ predicate_to_index v p = some pi) :
    preprocess v qs = Except.ok (qs.map (idxTriple v)) := by
  induction qs with
  | nil => rfl
  | cons q rest ih =>
    obtain ⟨s, p, o, si, pi, oi, hsp, hs, ho, hp⟩ := h q (by simp)
    obtain ⟨h1, h2⟩ := preprocessOne_ok_eq v q s p o si pi oi hsp hs ho hp
    have hrest := ih (fun x hx => h x (by simp [hx]))
    simp [preprocess, h1, hrest, h2]

/-- Witness for C4 on the questions a r b and b r a over the vocabulary
with entities a, b and predicate r. -/
theorem preprocess_maps_tokens_witness :
    preprocess ⟨["a", "b"], ["r"]⟩ ["a r b", "b r a"]
      = Except.ok ((["a r b", "b r a"]).map (idxTriple ⟨["a", "b"], ["r"]⟩)) :=
  preprocess_maps_tokens ⟨["a", "b"], ["r"]⟩ ["a r b", "b r a"] (by
    intro q hq
    simp only [List.mem_cons, List.not_mem_nil, or_false] at hq
    rcases hq with rfl | rfl
    · exact ⟨"a", "r", "b", 0, 0, 1, by decide, by decide, by decide, by decide⟩
    · exact ⟨"b", "r", "a", 1, 0, 0, by decide, by decide, by decide, by decide⟩)

lemma preprocess_mem_error (v : Vocab) (qs : List String) (q : String)
    (e0 : KBPError) (hq : q ∈ qs) (he : preprocessOne v q = Except.error e0) :
    ∃ e, preprocess v qs = Except.error e := by
  induction qs with
  | nil => simp at hq
  | cons a rest ih =>
    rcases List.mem_cons.mp hq with rfl | hmem
    · exact ⟨e0, by simp [preprocess, he]⟩
    · cases ha : preprocessOne v a with
      | error e1 => exact ⟨e1, by simp [preprocess, ha]⟩
      | ok t =>
        obtain ⟨e, hrest⟩ := ih hmem
        exact ⟨e, by simp [preprocess, ha, hrest]⟩

/-- C6: a question whose subject or object is absent from the frozen
vocabulary makes preprocessing fail with the unknown-entity error, and one
whose entities are known but whose predicate is absent fails with the
unknown-predicate error; a question list containing such a question never
preprocesses successfully, so nothing is substituted and the vocabulary is
not extended. -/
theorem preprocess_unknown_token (v : Vocab) (qs : List String) (q : String)
    (s p o : Token) (hq : q ∈ qs) (hsplit : splitQ q = [s, p, o]) :
    ((entity_to_index v s = none ∨ entity_to_index v o = none) →
        preprocessOne v q = Except.error KBPError.UnknownEntityError)
    ∧ (entity_to_index v s ≠ none → entity_to_index v o ≠ none →
        predicate_to_index v p = none →
        preprocessOne v q = Except.error KBPError.UnknownPredicateError)
    ∧ ((entity_to_index v s = none ∨ entity_to_index v o = none ∨
          predicate_to_index v p = none) →
        ∀ ts, preprocess v qs ≠ Except.ok ts) := by
  refine ⟨?_, ?_, ?_⟩
  · rintro (hn | hn) <;>
      · unfold preprocessOne
        rw [hsplit]
        cases hcs : entity_to_index v s <;>
          cases hco : entity_to_index v o <;>
          simp_all
  · intro hsn hon hpn
    cases hcs : entity_to_index v s with
    | none => exact absurd hcs hsn
    | some si =>
      cases hco : entity_to_index v o with
      | none => exact absurd hco hon
      | some oi =>
        unfold preprocessOne
        rw [hsplit]
        simp [hcs, hco, hpn]
  · intro hor ts hok
    have herr : ∃ e0, preprocessOne v q = Except.error e0 := by
      unfold preprocessOne
      rw [hsplit]
      rcases hor with hn | hn | hn
      · cases hco : entity_to_index v o <;> simp [hn, hco]
      · cases hcs : entity_to_index v s <;> simp [hn, hcs]
      · cases hcs : entity_to_index v s <;>
          cases hco : entity_to_index v o <;> simp [hn, hcs, hco]
    obtain ⟨e0, he0⟩ := herr
    obtain ⟨e, he⟩ := preprocess_mem_error v qs q e0 hq he0
    rw [he] at hok
    exact Except.noConfusion hok

/-- Witness for C6: with only the entity a and the predicate r in the
vocabulary, the question a r b has an unknown object. -/
theorem preprocess_unknown_token_witness :
    preprocessOne ⟨["a"], ["r"]⟩ "a r b"
      = Except.error KBPError.UnknownEntityError := by
  have h := preprocess_unknown_token ⟨["a"], ["r"]⟩ ["a r b"] "a r b"
    "a" "r" "b" (by decide) (by decide)
  exact h.1 (Or.inr (by decide))

/-- C7: a question that does not split into exactly three tokens makes
setup_from_data fail with the malformed-triple error when it occurs in the
training data, makes preprocessOne fail with the malformed-triple error,
and a question list containing it never preprocesses successfully; the
input is rejected, not truncated or padded. -/
theorem malformed_triple_rejected (v : Vocab) (q : String)
    (data : List String) (enumE enumP : List Token)
    (hlen : (splitQ q).length ≠ 3) (hmem : q ∈ data) :
    setup_from_data enumE enumP data
        = Except.error KBPError.MalformedTripleError
    ∧ preprocessOne v q = Except.error KBPError.MalformedTripleError
    ∧ ∀ ts, preprocess v data ≠ Except.ok ts := by
  have hone : preprocessOne v q = Except.error KBPError.MalformedTripleError := by
    unfold preprocessOne
    split
    · rename_i s p o heq
      rw [heq] at hlen
      simp at hlen
    · rfl
  refine ⟨?_, hone, ?_⟩
  · simp only [setup_from_data]
    have hall : ((data.map splitQ).all fun t => t.length == 3) = false :=
      List.all_eq_false.mpr
        ⟨splitQ q, List.mem_map_of_mem splitQ hmem, by simp [hlen]⟩
    rw [hall]
    simp
  · intro ts hok
    obtain ⟨e, he⟩ := preprocess_mem_error v data q
      KBPError.MalformedTripleError hmem hone
    rw [he] at hok
    exact Except.noConfusion hok

/-- Witness for C7 at the two-token question a r. -/
theorem malformed_triple_rejected_witness :
    setup_from_data [] [] ["a r"] = Except.error KBPError.MalformedTripleError
    ∧ preprocessOne ⟨[], []⟩ "a r"
        = Except.error KBPError.MalformedTripleError := by
  have h := malformed_triple_rejected ⟨[], []⟩ "a r" ["a r"] [] []
    (by decide) (by decide)
  exact ⟨h.1, h.2.1⟩

lemma replicate_two_add (m : Nat) :
    List.replicate (2 * m + 2) (0 : Nat) = 0 :: 0 :: List.replicate (2 * m) 0 :=
  rfl

lemma innerLoop_closed (rand : Nat → Nat) (w : Bool) (s p o : Nat) (k : Nat)
    (cl cur : List ITriple) (tg : List Nat) (d : Nat) :
    innerLoop rand w s p o k ⟨cl, cur, false, tg, d⟩
      = ⟨cl, cur ++ negPairs rand d s p o k, false,
          tg ++ (if w then List.replicate (2 * k) 0 else []), d + 2 * k⟩ := by
  induction k generalizing cur tg d with
  | zero => simp [innerLoop, negPairs]
  | succ m ih =>
    simp only [innerLoop, appendTr]
    simp only [Bool.false_eq_true, if_false]
    rw [ih]
    simp only [CBState.mk.injEq]
    refine ⟨trivial, ?_, trivial, ?_, by omega⟩
    · simp [negPairs, List.append_assoc]
    · cases w <;>
        simp [Nat.mul_succ, replicate_two_add, List.append_assoc]

lemma outerLoop_closed (rand : Nat → Nat) (w : Bool) (k : Nat)
    (l : List ITriple) (cl cur : List ITriple) (tg : List Nat) (d : Nat) :
    outerLoop rand w k l ⟨cl, cur, false, tg, d⟩
      = ⟨cl, cur ++ negsAll rand k d l, false,
          tg ++ (if w then List.replicate (2 * k * l.length) 0 else []),
          d + 2 * k * l.length⟩ := by
  induction l generalizing cur tg d with
  | nil => simp [outerLoop, negsAll]
  | cons t rest ih =>
    simp only [outerLoop]
    rw [innerLoop_closed, ih]
    simp only [CBState.mk.injEq]
    refine ⟨trivial, ?_, trivial, ?_, ?_⟩
    · simp [negsAll, List.append_assoc]
    · cases w with
      | false => simp
      | true =>
        simp only [if_true, List.append_assoc, ← List.replicate_add,
          List.length_cons]
        congr 2
        ring
    · simp only [List.length_cons]
      ring

lemma negPairs_length (rand : Nat → Nat) (d s p o k : Nat) :
    (negPairs rand d s p o k).length = 2 * k := by
  induction k generalizing d with
  | zero => rfl
  | succ m ih =>
    simp only [negPairs, List.length_cons, ih]
    omega

lemma negsAll_length (rand : Nat → Nat) (k d : Nat) (l : List ITriple) :
    (negsAll rand k d l).length = 2 * k * l.length := by
  induction l generalizing d with
  | nil => simp [negsAll]
  | cons t rest ih =>
    simp only [negsAll, List.length_append, negPairs_length, ih,
      List.length_cons]
    ring

/-- C1: in training mode the batch rows are the positives, in input order,
followed by the corrupted triples: for the i-th positive and each of the
num_negative repeats, a subject-corrupted triple then an object-corrupted
one, each keeping the predicate and the uncorrupted entity of its positive
(the shape of negsAll); the row count is n * (1 + 2 * k). -/
theorem create_batch_training_rows (rand : Nat → Nat) (k : Nat)
    (ts : List ITriple) (w : Bool) :
    (create_batch rand k ts false w).1.question = ts ++ negsAll rand k 0 ts
    ∧ (create_batch rand k ts false w).1.question.length
        = ts.length * (1 + 2 * k) := by
  have h := outerLoop_closed rand w k ts ts ts
    (if w then List.replicate ts.length 1 else []) 0
  constructor
  · simp [create_batch, h]
  · simp [create_batch, h, negsAll_length]
    ring

/-- C3: in evaluation mode the batch rows are exactly the positives, in
their original order, whatever num_negative is. -/
theorem create_batch_eval_rows (rand : Nat → Nat) (k : Nat)
    (ts : List ITriple) (w : Bool) :
    (create_batch rand k ts true w).1.question = ts
    ∧ (create_batch rand k ts true w).1.question.length = ts.length := by
  constructor <;> simp [create_batch]

/-- C2: the target array is present exactly when with_answers; it is then
1 for every positive row followed by 0 for every synthesized negative row,
and its length equals the row count of the question array. -/
theorem create_batch_target_alignment (rand : Nat → Nat) (k : Nat)
    (ts : List ITriple) (ev w : Bool) :
    (create_batch rand k ts ev w).1.target
      = (if w then
          some (List.replicate ts.length 1
            ++ List.replicate (if ev then 0 else 2 * k * ts.length) 0)
        else none)
    ∧ (create_batch rand k ts ev w).1.question.length
      = ts.length + (if ev then 0 else 2 * k * ts.length) := by
  cases ev with
  | true => cases w <;> simp [create_batch]
  | false =>
    cases w with
    | false =>
      have h := outerLoop_closed rand false k ts ts ts [] 0
      simp [create_batch, h, negsAll_length]
    | true =>
      have h := outerLoop_closed rand true k ts ts ts
        (List.replicate ts.length 1) 0
      simp [create_batch, h, negsAll_length]

/-- C10: the contents of the caller's triple list are unchanged by
create_batch: the local name is rebound to a fresh copy on entry, so every
append targets the copy and never the caller's list object. -/
theorem create_batch_preserves_caller (rand : Nat → Nat) (k : Nat)
    (ts : List ITriple) (ev w : Bool) :
    (create_batch rand k ts ev w).2 = ts := by
  cases ev with
  | true => simp [create_batch]
  | false =>
    have h := outerLoop_closed rand w k ts ts ts
      (if w then List.replicate ts.length 1 else []) 0
    simp [create_batch, h]

lemma outputGo_spec {α : Type} (logits : List α) (rest : List String)
    (i : Nat) (h : i + rest.length ≤ logits.length) :
    outputGo logits i rest
      = some ((rest.zip (logits.drop i)).map
          (fun pr => ⟨pr.1, pr.2⟩)) := by
  induction rest generalizing i with
  | nil => simp [outputGo]
  | cons q rs ih =>
    have hi : i < logits.length := by
      simp only [List.length_cons] at h
      omega
    have hget : logits[i]? = some logits[i] := List.getElem?_eq_getElem hi
    have hdrop : logits.drop i = logits[i] :: logits.drop (i + 1) :=
      List.drop_eq_getElem_cons hi
    have hih := ih (i + 1) (by simp only [List.length_cons] at h; omega)
    rw [hdrop]
    simp only [outputGo, hget, hih, List.zip_cons_cons, List.map_cons]

/-- C9: on m questions and m logits the output conversion returns exactly
m answers, in input order, the i-th pairing the i-th question text with
the i-th logit; nothing is filtered, reordered or ranked. -/
theorem outputCall_pairs {α : Type} (inputs : List String) (logits : List α)
    (h : logits.length = inputs.length) :
    outputCall inputs logits
      = some ((inputs.zip logits).map (fun pr => ⟨pr.1, pr.2⟩))
    ∧ ((inputs.zip logits).map
        (fun pr => (⟨pr.1, pr.2⟩ : Answer α))).length = inputs.length := by
  constructor
  · have hg := outputGo_spec logits inputs 0 (by omega)
    simpa [outputCall] using hg
  · simp [List.length_zip, h]

/-- Witness for C9 at two questions and two integer logits. -/
theorem outputCall_pairs_witness :
    outputCall ["x y z", "q"] [(3 : Int), 7]
      = some [⟨"x y z", 3⟩, ⟨"q", 7⟩] := by
  have h := outputCall_pairs ["x y z", "q"] [(3 : Int), 7] rfl
  simpa using h.1
